import Mathlib

/-!
Verification development for the sd-webui-editor-link repository.

The repository has two cores:

* `scripts/editor_link/photoshop_plugin.py` — the plugin package sync
  (manifest computation, install status, in-place update).
* `scripts/editor_link/link.py` — the WebSocket relay hub
  (client registry, message handling, broadcast in two modes).

This file gives a shallow embedding of both parts and proves properties
about them.  Python dictionaries are modelled as insertion-ordered
association lists, the filesystem as explicit data (directory entries and
file maps), exceptions as `Except`, and the SHA-256 digest as an
unspecified parameter `hash : Bytes → Bytes` (the digest function itself is
a library call, not repository code; everything the repository does with it
is embedded).
-/

namespace EditorLink

/-- File contents: a sequence of bytes, each a natural number. -/
abbrev Bytes := List Nat

/-- A Python `dict` from relative path to file bytes, in insertion order. -/
abbrev FileMap := List (String × Bytes)

/-- Dictionary lookup: `m[key]` returning `none` when absent. -/
def getKV : FileMap → String → Option Bytes
  | [], _ => none
  | (k, v) :: rest, key => if k = key then some v else getKV rest key

/-- Dictionary assignment `m[key] = val`: replaces in place when the key is
present (keeping its insertion position, as Python does), appends otherwise. -/
def setKV : FileMap → String → Bytes → FileMap
  | [], key, val => [(key, val)]
  | (k, v) :: rest, key, val =>
      if k = key then (k, val) :: rest else (k, v) :: setKV rest key val

/-- The keys of a dictionary, in insertion order (Python `dict.keys()`). -/
def keysOf (m : FileMap) : List String := m.map Prod.fst

/-- Builds the `files` dictionary from the directory traversal sequence
produced by `ps_extension_path.glob('**/*')`: each regular file is inserted
in traversal order. -/
def buildDict (src : List (String × Bytes)) : FileMap :=
  src.foldl (fun m kv => setKV m kv.1 kv.2) []

/-- The synthetic version-marker entry name used throughout
`photoshop_plugin.py`. -/
def versionTxt : String := "version.txt"

/-- The code points of a string, mirroring how Python compares paths. -/
def codesOf (s : String) : List Nat := s.data.map Char.toNat

/-- Lexicographic comparison of code-point sequences (Python `str` order). -/
def leCodes : List Nat → List Nat → Bool
  | [], _ => true
  | _ :: _, [] => false
  | a :: as, b :: bs => if a < b then true else if b < a then false else leCodes as bs

/-- Python's `<=` on strings: code-point lexicographic order. -/
def strLe (a b : String) : Prop := leCodes (codesOf a) (codesOf b) = true

instance : DecidableRel strLe := fun a b => by
  unfold strLe; infer_instance

/-- `sorted(keys)`: the keys in ascending lexicographic order. -/
def sortKeys (l : List String) : List String := List.insertionSort strLe l

/-- The byte sequence fed to the manifest hash: every file's raw bytes
concatenated in ascending order of relative path
(`for file in sorted(files.keys()): hash.update(files[file])`). -/
def hashInputOf (files : FileMap) : Bytes :=
  ((sortKeys (keysOf files)).map (fun k => (getKV files k).getD [])).flatten

/-- `_read_photoshop_plugin_files` (photoshop_plugin.py, lines 106-130):
reads every regular file under the plugin directory into a dictionary, then
adds `version.txt` holding a hash over all other entries' bytes in sorted
key order. -/
def read_photoshop_plugin_files (hash : Bytes → Bytes) (src : List (String × Bytes)) :
    FileMap :=
  let files := buildDict src
  setKV files versionTxt (hash (hashInputOf files))

/-- `_get_current_plugin_version` (photoshop_plugin.py, lines 132-146) with
`devel = True`: the `version.txt` value of a freshly computed manifest. -/
def current_plugin_version (hash : Bytes → Bytes) (src : List (String × Bytes)) : Bytes :=
  hash (hashInputOf (buildDict src))

/-- The on-disk state relevant to the sync code: the names present under the
Photoshop external-plugins root, and the files installed under the
version-qualified plugin directory (relative path to bytes). -/
structure DiskState where
  entries : List String
  installed : FileMap
deriving DecidableEq

/-- The common first part of every versioned installation directory name. -/
def pluginEntryStart : String := "sd-webui-editor-link_"

/-- The version-qualified installation directory name
(`sd-webui-editor-link_{version}`). -/
def expectedEntry (ver : String) : String := pluginEntryStart ++ ver

/-- `_installed_plugin_version` (photoshop_plugin.py, lines 53-64): the
version encoded in the first matching directory name under the plugin root,
or `none`. -/
def installed_plugin_version (disk : DiskState) : Option String :=
  (disk.entries.find? (fun n => n.startsWith pluginEntryStart)).map
    (fun n => n.drop pluginEntryStart.length)

/-- `check_plugin_contents` (photoshop_plugin.py, lines 187-202): true when
the plugin is installed and its stored `version.txt` equals the current
marker.  Reading a missing `version.txt` raises (`Except.error`), exactly as
`installed_version_txt.open('rb')` raises `FileNotFoundError`. -/
def check_plugin_contents (hash : Bytes → Bytes) (ver : String)
    (src : List (String × Bytes)) (disk : DiskState) : Except Unit Bool :=
  if expectedEntry ver ∈ disk.entries then
    match getKV disk.installed versionTxt with
    | none => .error ()
    | some installedHash => .ok (decide (installedHash = current_plugin_version hash src))
  else .ok false

/-- Status string returned when the plugin is ready. -/
def statusOk : String := "ok"

/-- Status string returned when the installed copy is out of date. -/
def statusNotSynced : String := "not-synced"

/-- Status string returned when no installation of any version exists. -/
def statusNotInstalled : String := "not-installed"

/-- Status string returned when a different version is installed. -/
def statusReinstall : String := "reinstall-required"

/-- `get_plugin_status` (photoshop_plugin.py, lines 165-185).  An exception
escaping `check_plugin_contents` propagates out of the status call. -/
def get_plugin_status (hash : Bytes → Bytes) (ver : String)
    (src : List (String × Bytes)) (disk : DiskState) : Except Unit String :=
  if expectedEntry ver ∈ disk.entries then
    match check_plugin_contents hash ver src disk with
    | .error e => .error e
    | .ok b => .ok (if b then statusOk else statusNotSynced)
  else
    if (installed_plugin_version disk).isSome then .ok statusReinstall
    else .ok statusNotInstalled

/-- The per-file loop of `update_photoshop_plugin` (photoshop_plugin.py,
lines 259-272), processing paths in the given order over the installed file
map: read the installed copy (a missing file raises `FileNotFoundError`,
aborting the loop with the writes performed so far), skip it when the bytes
already match, overwrite it otherwise.  Returns the resulting installed
map, the sequence of writes performed, and whether the loop finished. -/
def runUpdateFiles (files : FileMap) :
    FileMap → List String → FileMap × List (String × Bytes) × Bool
  | installed, [] => (installed, [], true)
  | installed, path :: rest =>
      match getKV installed path with
      | none => (installed, [], false)
      | some idata =>
          let d := (getKV files path).getD []
          if idata = d then runUpdateFiles files installed rest
          else
            let r := runUpdateFiles files (setKV installed path d) rest
            (r.1, (path, d) :: r.2.1, r.2.2)

/-- The processing order of `update_photoshop_plugin` (lines 253-257):
all manifest paths with `version.txt` moved to the end. -/
def updateOrder (files : FileMap) : List String :=
  (keysOf files).erase versionTxt ++ [versionTxt]

/-- `update_photoshop_plugin` (photoshop_plugin.py, lines 230-272), with its
write trace made explicit: returns the writes it performs in order, and
either the resulting disk state or an error when a read raised. -/
def updateTrace (hash : Bytes → Bytes) (ver : String)
    (src : List (String × Bytes)) (disk : DiskState) :
    List (String × Bytes) × Except Unit DiskState :=
  if expectedEntry ver ∈ disk.entries then
    match check_plugin_contents hash ver src disk with
    | .error e => ([], .error e)
    | .ok true => ([], .ok disk)
    | .ok false =>
        let files := read_photoshop_plugin_files hash src
        let r := runUpdateFiles files disk.installed (updateOrder files)
        (r.2.1, if r.2.2 then .ok { disk with installed := r.1 } else .error ())
  else ([], .ok disk)

/-- The result of `update_photoshop_plugin`. -/
def update_photoshop_plugin (hash : Bytes → Bytes) (ver : String)
    (src : List (String × Bytes)) (disk : DiskState) : Except Unit DiskState :=
  (updateTrace hash ver src disk).2

/-- The sequence of file writes `update_photoshop_plugin` performs. -/
def updateWriteSeq (hash : Bytes → Bytes) (ver : String)
    (src : List (String × Bytes)) (disk : DiskState) : List (String × Bytes) :=
  (updateTrace hash ver src disk).1

/-- Applies a sequence of file writes to an installed file map. -/
def applyWrites (installed : FileMap) (ws : List (String × Bytes)) : FileMap :=
  ws.foldl (fun m kv => setKV m kv.1 kv.2) installed

/-- A JSON value, as decoded by `websocket.receive_json()`. -/
inductive Json where
  | null
  | jbool (b : Bool)
  | jnum (n : Int)
  | jstr (s : String)
  | jarr (elems : List Json)
  | jobj (fields : List (String × Json))

/-- Whether the decoded value is a Python `dict` — the only JSON shape on
which `data.get('action')` succeeds; on any other shape the attribute access
raises `AttributeError`. -/
def Json.isMapping : Json → Bool
  | .jobj _ => true
  | _ => false

/-- `WebsocketClient` (link.py, lines 372-384): the connection handle
(identified by `wsId`) and the event loop that accepted it. -/
structure WClient where
  wsId : Nat
  loopId : Nat
deriving DecidableEq

/-- The relay state: `SDSync.clients`, the set of registered clients,
modelled as a list in iteration order. -/
structure Hub where
  clients : List WClient
deriving DecidableEq

/-- `WebsocketClient.send_message`: whether the send to the given connection
succeeds is determined by the environment `okf` (the peer may have
disconnected mid-send); a failed send raises, modelled as `Except.error`. -/
def send_message (okf : Nat → Bool) (c : WClient) : Except Unit Unit :=
  if okf c.wsId then .ok () else .error ()

/-- `SDSync.broadcast_message` (link.py, lines 173-186): for every client
whose websocket is not `source_client`, send the message; the results are
gathered with `return_exceptions=True`, so the call returns the per-client
outcomes and never raises.  Each entry records the target connection, the
delivered object, and the send outcome. -/
def broadcast_message (okf : Nat → Bool) (hub : Hub) (message : Json)
    (source_client : Option Nat) : List (Nat × Json × Except Unit Unit) :=
  (hub.clients.filter (fun c => !(decide (source_client = some c.wsId)))).map
    (fun c => (c.wsId, message, send_message okf c))

/-- `SDSync.broadcast_message_threaded` (link.py, lines 188-204): asserts no
event loop runs on the calling thread, schedules a send onto every client's
own loop via `run_coroutine_threadsafe` (all futures are created before any
result is awaited), then waits on the futures in order; `future.result()`
re-raises the first failure.  Returns the scheduled sends and the outcome
the caller observes. -/
def broadcast_message_threaded (okf : Nat → Bool) (hasLoop : Bool) (hub : Hub)
    (message : Json) : List (Nat × Json) × Except Unit Unit :=
  if hasLoop then ([], .error ())
  else
    (hub.clients.map (fun c => (c.wsId, message)),
     if hub.clients.all (fun c => okf c.wsId) then .ok () else .error ())

/-- `SDSync.handle_websocket_message` (link.py, lines 165-171):
`data.get('action')` raises on a non-mapping value; otherwise the message is
broadcast — note the call is `broadcast_message(data)` with `source_client`
left at its default `None` — and `None` is returned as the reply. -/
def handle_websocket_message (okf : Nat → Bool) (hub : Hub) (_ws : Nat)
    (data : Json) : Except Unit (Option Json × List (Nat × Json × Except Unit Unit)) :=
  match data with
  | .jobj _ => .ok (none, broadcast_message okf hub data none)
  | _ => .error ()

/-- Outcome of `await websocket.accept()`. -/
inductive AcceptOutcome where
  | success
  | failure
deriving DecidableEq

/-- One iteration of `await websocket.receive_json()`: a decoded value, a
`WebSocketDisconnect`, or another receive error. -/
inductive RecvOutcome where
  | msg (j : Json)
  | disconnect
  | recvError

/-- The environment behaviour driving one run of `websocket_endpoint`. -/
structure Script where
  accept : AcceptOutcome
  recvs : List RecvOutcome

/-- The connection lifecycle phase of one handler. -/
inductive Phase where
  | connecting
  | opened
  | doneClean
  | doneError
deriving DecidableEq

/-- Whether the handler has exited (its `finally` block has run). -/
def Phase.isDone : Phase → Bool
  | .doneClean => true
  | .doneError => true
  | _ => false

/-- `self.clients.add(client)`: Python set insertion. -/
def addClient (hub : Hub) (c : WClient) : Hub :=
  { clients := if c ∈ hub.clients then hub.clients else hub.clients ++ [c] }

/-- `self.clients.remove(client)`: Python set removal. -/
def removeClient (hub : Hub) (c : WClient) : Hub :=
  { clients := hub.clients.erase c }

/-- The receive loop of `websocket_endpoint` (link.py, lines 153-163): each
received value is passed to `handle_websocket_message`; an exception there
(or a receive error) ends the loop through the `finally` block, which
removes the client; a `WebSocketDisconnect` ends it cleanly.  Returns the
sequence of (registry, phase) states and the connection ids of every
broadcast delivery attempted during the loop. -/
def recvLoop (okf : Nat → Bool) (hub : Hub) (c : WClient) :
    List RecvOutcome → List (Hub × Phase) × List Nat
  | [] => ([], [])
  | .msg j :: rest =>
      match handle_websocket_message okf hub c.wsId j with
      | .ok (_, dels) =>
          let r := recvLoop okf hub c rest
          ((hub, .opened) :: r.1, dels.map (fun d => d.1) ++ r.2)
      | .error _ => ([(removeClient hub c, .doneError)], [])
  | .disconnect :: _ => ([(removeClient hub c, .doneClean)], [])
  | .recvError :: _ => ([(removeClient hub c, .doneError)], [])

/-- `SDSync.websocket_endpoint` (link.py, lines 142-163): the client is
added to the registry, then the handshake is awaited, then the receive loop
runs; on every exit path the `finally` block removes the client.  Returns
the sequence of (registry, phase) states and all attempted broadcast
targets. -/
def websocket_endpoint (okf : Nat → Bool) (hub0 : Hub) (c : WClient)
    (s : Script) : List (Hub × Phase) × List Nat :=
  let h1 := addClient hub0 c
  match s.accept with
  | .failure => ([(h1, .connecting), (removeClient h1 c, .doneError)], [])
  | .success =>
      let r := recvLoop okf h1 c s.recvs
      ((h1, .connecting) :: (h1, .opened) :: r.1, r.2)

/-- A stand-in digest function for concrete witnesses (the development is
parametric in the digest; witnesses may pick any function). -/
def hash0 : Bytes → Bytes := fun b => b

/-- A concrete plugin manifest version for witnesses. -/
def ver0 : String := "1.0.0"

/-- A one-file source tree used by several witnesses. -/
def src0 : List (String × Bytes) := [("a", [1])]

/-- A two-file source tree used by witnesses. -/
def srcW : List (String × Bytes) := [("a", [1]), ("b", [2])]

/-- `srcW` traversed in the opposite order. -/
def srcWrev : List (String × Bytes) := [("b", [2]), ("a", [1])]

/-- A one-file source tree: one file `a` with one byte. -/
def srcA : List (String × Bytes) := [("a", [120])]

/-- `srcA` plus an empty file `b`. -/
def srcB : List (String × Bytes) := [("a", [120]), ("b", [])]

/-- An installation directory holding an out-of-date copy of `src0`. -/
def disk6 : DiskState :=
  ⟨[expectedEntry ver0], [("a", [0]), ("version.txt", [9])]⟩

/-- The installation `disk6` after a completed update from `src0`. -/
def disk6' : DiskState :=
  ⟨[expectedEntry ver0], [("a", [1]), ("version.txt", [1])]⟩

/-- An installation whose directory exists but whose marker file is
missing. -/
def diskNoMarker : DiskState := ⟨[expectedEntry ver0], [("a", [1])]⟩

/-- An installation missing the manifest file `b` of `srcW`. -/
def diskMissingB : DiskState :=
  ⟨[expectedEntry ver0], [("a", [1]), ("version.txt", [9])]⟩

/-- A send environment in which every delivery succeeds. -/
def okT : Nat → Bool := fun _ => true

/-- A send environment in which delivery to connection 1 fails. -/
def okFail1 : Nat → Bool := fun n => decide (n ≠ 1)

/-- A two-client relay: connections 0 and 1 on loops 10 and 11. -/
def hubAB : Hub := ⟨[⟨0, 10⟩, ⟨1, 11⟩]⟩

/-- A three-client relay on one shared loop. -/
def hub3 : Hub := ⟨[⟨0, 0⟩, ⟨1, 0⟩, ⟨2, 0⟩]⟩

/-- An empty relay. -/
def hubE : Hub := ⟨[]⟩

/-- A one-client relay holding only connection 1. -/
def hubB : Hub := ⟨[⟨1, 0⟩]⟩

/-- A fresh client on connection 0. -/
def c0 : WClient := ⟨0, 0⟩

/-- A minimal JSON object message. -/
def msgA : Json := .jobj [("action", .jstr "load-image")]

theorem keysOf_cons (k : String) (v : Bytes) (m : FileMap) :
    keysOf ((k, v) :: m) = k :: keysOf m := rfl

theorem getKV_setKV_self (m : FileMap) (k : String) (v : Bytes) :
    getKV (setKV m k v) k = some v := by
  induction m with
  | nil => simp [setKV, getKV]
  | cons kv rest ih =>
      obtain ⟨k', v'⟩ := kv
      by_cases h : k' = k <;> simp [setKV, getKV, h, ih]

theorem getKV_setKV_ne (m : FileMap) (k k' : String) (v : Bytes) (h : k' ≠ k) :
    getKV (setKV m k v) k' = getKV m k' := by
  have h' : ¬ k = k' := fun hkk => h hkk.symm
  induction m with
  | nil => simp [setKV, getKV, h']
  | cons kv rest ih =>
      obtain ⟨k₀, v₀⟩ := kv
      by_cases h0 : k₀ = k
      · subst h0
        simp [setKV, getKV, h']
      · by_cases h1 : k₀ = k' <;> simp [setKV, getKV, h0, h1, ih, h]

theorem mem_keysOf_setKV (m : FileMap) (k k' : String) (v : Bytes) :
    k' ∈ keysOf (setKV m k v) ↔ k' = k ∨ k' ∈ keysOf m := by
  induction m with
  | nil => simp [setKV, keysOf]
  | cons kv rest ih =>
      obtain ⟨k₀, v₀⟩ := kv
      by_cases h0 : k₀ = k
      · subst h0
        simp [setKV, keysOf_cons]
      · simp only [setKV, if_neg h0, keysOf_cons, List.mem_cons, ih]
        tauto

theorem getKV_eq_none_iff (m : FileMap) (k : String) :
    getKV m k = none ↔ k ∉ keysOf m := by
  induction m with
  | nil => simp [getKV, keysOf]
  | cons kv rest ih =>
      obtain ⟨k₀, v₀⟩ := kv
      by_cases h0 : k₀ = k
      · subst h0
        simp [getKV, keysOf_cons]
      · have h0' : ¬ k = k₀ := fun hkk => h0 hkk.symm
        simp [getKV, keysOf_cons, h0, h0', ih]

theorem getKV_isSome_iff (m : FileMap) (k : String) :
    (getKV m k).isSome = true ↔ k ∈ keysOf m := by
  rw [Option.isSome_iff_ne_none, ne_eq, getKV_eq_none_iff, not_not]

theorem keysOf_setKV_of_mem (m : FileMap) (k : String) (v : Bytes)
    (h : k ∈ keysOf m) : keysOf (setKV m k v) = keysOf m := by
  induction m with
  | nil => simp [keysOf] at h
  | cons kv rest ih =>
      obtain ⟨k₀, v₀⟩ := kv
      by_cases h0 : k₀ = k
      · simp [setKV, h0, keysOf_cons]
      · rw [keysOf_cons, List.mem_cons] at h
        rcases h with h | h
        · exact absurd h.symm h0
        · simp [setKV, h0, keysOf_cons, ih h]

theorem setKV_of_not_mem (m : FileMap) (k : String) (v : Bytes)
    (h : k ∉ keysOf m) : setKV m k v = m ++ [(k, v)] := by
  induction m with
  | nil => simp [setKV]
  | cons kv rest ih =>
      obtain ⟨k₀, v₀⟩ := kv
      rw [keysOf_cons, List.mem_cons] at h
      push_neg at h
      have h0 : ¬ k₀ = k := fun hkk => h.1 hkk.symm
      simp [setKV, h0, ih h.2]

theorem nodup_keysOf_setKV (m : FileMap) (k : String) (v : Bytes)
    (h : (keysOf m).Nodup) : (keysOf (setKV m k v)).Nodup := by
  by_cases hk : k ∈ keysOf m
  · rw [keysOf_setKV_of_mem m k v hk]; exact h
  · rw [setKV_of_not_mem m k v hk]
    rw [show keysOf (m ++ [(k, v)]) = keysOf m ++ [k] by simp [keysOf]]
    simp [List.nodup_append, h, hk]

theorem nodup_keysOf_buildDict (src : List (String × Bytes)) :
    (keysOf (buildDict src)).Nodup := by
  suffices h : ∀ acc : FileMap, (keysOf acc).Nodup →
      (keysOf (src.foldl (fun m kv => setKV m kv.1 kv.2) acc)).Nodup by
    exact h [] (by simp [keysOf])
  induction src with
  | nil => intro acc hacc; simpa using hacc
  | cons kv rest ih =>
      intro acc hacc
      exact ih _ (nodup_keysOf_setKV _ _ _ hacc)

theorem foldl_setKV_disjoint (src : List (String × Bytes)) : ∀ acc : FileMap,
    (∀ k, k ∈ src.map Prod.fst → k ∉ keysOf acc) → (src.map Prod.fst).Nodup →
    src.foldl (fun m kv => setKV m kv.1 kv.2) acc = acc ++ src := by
  induction src with
  | nil => intro acc _ _; simp
  | cons kv rest ih =>
      intro acc hdisj hnd
      obtain ⟨k, v⟩ := kv
      simp only [List.foldl_cons]
      rw [setKV_of_not_mem acc k v (hdisj k (by simp))]
      simp only [List.map_cons, List.nodup_cons] at hnd
      rw [ih (acc ++ [(k, v)]) ?_ hnd.2]
      · simp
      · intro k' hk'
        have hne : k' ≠ k := fun hkk => hnd.1 (hkk ▸ hk')
        have hout : k' ∉ keysOf acc := hdisj k' (by simp [hk'])
        simp only [keysOf, List.map_append, List.mem_append, List.map_cons,
          List.map_nil, List.mem_singleton]
        tauto

theorem buildDict_eq_self (src : List (String × Bytes))
    (h : (src.map Prod.fst).Nodup) : buildDict src = src := by
  simpa using foldl_setKV_disjoint src [] (by simp [keysOf]) h

theorem getKV_applyWrites_of_not_mem (ws : List (String × Bytes)) (m : FileMap)
    (k : String) (h : k ∉ ws.map Prod.fst) :
    getKV (applyWrites m ws) k = getKV m k := by
  induction ws generalizing m with
  | nil => simp [applyWrites]
  | cons kv rest ih =>
      obtain ⟨k₀, v₀⟩ := kv
      simp only [List.map_cons, List.mem_cons] at h
      push_neg at h
      simp only [applyWrites, List.foldl_cons]
      rw [show List.foldl (fun m kv => setKV m kv.1 kv.2) (setKV m k₀ v₀) rest
            = applyWrites (setKV m k₀ v₀) rest from rfl]
      rw [ih (setKV m k₀ v₀) h.2]
      exact getKV_setKV_ne m k₀ k v₀ h.1

theorem leCodes_total : ∀ a b : List Nat, leCodes a b = true ∨ leCodes b a = true
  | [], _ => Or.inl rfl
  | _ :: _, [] => Or.inr rfl
  | a :: as, b :: bs => by
      rcases Nat.lt_trichotomy a b with h | h | h
      · left; simp [leCodes, h]
      · subst h
        simpa [leCodes] using leCodes_total as bs
      · right; simp [leCodes, h]

theorem leCodes_cons_iff (a b : Nat) (as bs : List Nat) :
    leCodes (a :: as) (b :: bs) = true ↔ a < b ∨ (a = b ∧ leCodes as bs = true) := by
  simp only [leCodes]
  split_ifs with h1 h2
  · simp [h1]
  · simp only [false_iff]
    push_neg
    exact ⟨by omega, fun heq => absurd heq (by omega)⟩
  · have hab : a = b := by omega
    simp [hab]

theorem leCodes_trans : ∀ a b c : List Nat,
    leCodes a b = true → leCodes b c = true → leCodes a c = true
  | [], _, _ => fun _ _ => rfl
  | _ :: _, [], _ => fun h1 _ => by simp [leCodes] at h1
  | _ :: _, _ :: _, [] => fun _ h2 => by simp [leCodes] at h2
  | a :: as, b :: bs, c :: cs => fun h1 h2 => by
      rw [leCodes_cons_iff] at h1 h2 ⊢
      rcases h1 with h1 | ⟨rfl, h1⟩
      · rcases h2 with h2 | ⟨rfl, _⟩
        · exact Or.inl (Nat.lt_trans h1 h2)
        · exact Or.inl h1
      · rcases h2 with h2 | ⟨rfl, h2⟩
        · exact Or.inl h2
        · exact Or.inr ⟨rfl, leCodes_trans as bs cs h1 h2⟩

theorem leCodes_antisymm : ∀ a b : List Nat,
    leCodes a b = true → leCodes b a = true → a = b
  | [], [] => fun _ _ => rfl
  | [], _ :: _ => fun _ h2 => by simp [leCodes] at h2
  | _ :: _, [] => fun h1 _ => by simp [leCodes] at h1
  | a :: as, b :: bs => fun h1 h2 => by
      rw [leCodes_cons_iff] at h1 h2
      rcases h1 with h1 | ⟨rfl, h1⟩
      · rcases h2 with h2 | ⟨heq, _⟩
        · exact ((by omega : False)).elim
        · exact ((by omega : False)).elim
      · rcases h2 with h2 | ⟨_, h2⟩
        · exact ((by omega : False)).elim
        · rw [leCodes_antisymm as bs h1 h2]

theorem codesOf_injective {a b : String} (h : codesOf a = codesOf b) : a = b := by
  have hchar : Function.Injective Char.toNat := fun c d hcd => by
    apply Char.ext
    exact UInt32.ext hcd
  have hdata : a.data = b.data := List.map_injective_iff.mpr hchar h
  cases a; cases b; simp_all

instance : IsTotal String strLe := ⟨fun a b => leCodes_total _ _⟩

instance : IsTrans String strLe := ⟨fun _ _ _ h1 h2 => leCodes_trans _ _ _ h1 h2⟩

instance : IsAntisymm String strLe :=
  ⟨fun _ _ h1 h2 => codesOf_injective (leCodes_antisymm _ _ h1 h2)⟩

theorem sortKeys_eq_of_perm (l1 l2 : List String) (h : l1.Perm l2) :
    sortKeys l1 = sortKeys l2 := by
  refine List.eq_of_perm_of_sorted ?_
    (List.sorted_insertionSort strLe l1) (List.sorted_insertionSort strLe l2)
  exact ((List.perm_insertionSort strLe l1).trans h).trans
    (List.perm_insertionSort strLe l2).symm

theorem getKV_eq_some_iff_mem (m : FileMap) (k : String) (v : Bytes)
    (hnd : (keysOf m).Nodup) : getKV m k = some v ↔ (k, v) ∈ m := by
  induction m with
  | nil => simp [getKV]
  | cons kv rest ih =>
      obtain ⟨k₀, v₀⟩ := kv
      rw [keysOf_cons, List.nodup_cons] at hnd
      by_cases h0 : k₀ = k
      · subst h0
        rw [show getKV ((k₀, v₀) :: rest) k₀ = some v₀ from by simp [getKV]]
        simp only [List.mem_cons, Option.some.injEq]
        constructor
        · rintro rfl
          exact Or.inl rfl
        · rintro (h | h)
          · injection h with _ h2
            exact h2.symm
          · exact absurd (List.mem_map_of_mem Prod.fst h) hnd.1
      · have h0' : ¬ (k, v) = (k₀, v₀) := by
          intro hkk
          exact h0 (congrArg Prod.fst hkk).symm
        simp [getKV, h0, ih hnd.2, h0']

theorem getKV_eq_of_perm (l1 l2 : FileMap) (h : l1.Perm l2)
    (hnd : (keysOf l1).Nodup) (k : String) : getKV l1 k = getKV l2 k := by
  have hnd2 : (keysOf l2).Nodup := ((h.map Prod.fst).nodup_iff).mp hnd
  cases e : getKV l1 k with
  | none =>
      rw [getKV_eq_none_iff] at e
      have : k ∉ keysOf l2 := fun hk => e ((h.map Prod.fst).mem_iff.mpr hk)
      rw [eq_comm, getKV_eq_none_iff]
      exact this
  | some v =>
      rw [getKV_eq_some_iff_mem _ _ _ hnd] at e
      rw [eq_comm, getKV_eq_some_iff_mem _ _ _ hnd2]
      exact h.mem_iff.mp e

theorem sublist_single {α : Type} {l : List α} {a : α} (h : l.Sublist [a]) :
    l = [] ∨ l = [a] := by
  cases h with
  | cons _ h' =>
      left
      exact List.sublist_nil.mp h'
  | cons₂ _ h' =>
      right
      rw [List.sublist_nil.mp h']

theorem not_mem_dropLast_of_sublist {α : Type} (l l₁ : List α) (a : α)
    (hs : l.Sublist (l₁ ++ [a])) (ha : a ∉ l₁) : a ∉ l.dropLast := by
  rw [List.sublist_append_iff] at hs
  obtain ⟨p, q, rfl, hp, hq⟩ := hs
  have hap : a ∉ p := fun hmem => ha (hp.subset hmem)
  rcases sublist_single hq with rfl | rfl
  · rw [List.append_nil]
    intro hmem
    exact hap ((List.dropLast_sublist p).subset hmem)
  · rw [List.dropLast_concat]
    exact hap

theorem runUpdate_writes_sublist (files : FileMap) : ∀ (i : FileMap) (order : List String),
    ((runUpdateFiles files i order).2.1.map Prod.fst).Sublist order := by
  intro i order
  induction order generalizing i with
  | nil => simp [runUpdateFiles]
  | cons path rest ih =>
      cases hg : getKV i path with
      | none => simp [runUpdateFiles, hg]
      | some idata =>
          by_cases he : idata = (getKV files path).getD []
          · simp only [runUpdateFiles, hg, if_pos he]
            exact (ih i).cons path
          · simp only [runUpdateFiles, hg, if_neg he, List.map_cons]
            exact (ih _).cons₂ path

theorem runUpdate_frame (files : FileMap) : ∀ (i : FileMap) (order : List String)
    (k : String), k ∉ order →
    getKV (runUpdateFiles files i order).1 k = getKV i k := by
  intro i order
  induction order generalizing i with
  | nil => intro k _; simp [runUpdateFiles]
  | cons path rest ih =>
      intro k hk
      rw [List.mem_cons] at hk
      push_neg at hk
      cases hg : getKV i path with
      | none => simp [runUpdateFiles, hg]
      | some idata =>
          by_cases he : idata = (getKV files path).getD []
          · simp only [runUpdateFiles, hg, if_pos he]
            exact ih i k hk.2
          · simp only [runUpdateFiles, hg, if_neg he]
            rw [ih _ k hk.2]
            exact getKV_setKV_ne i path k _ hk.1

theorem runUpdate_ok_present (files : FileMap) : ∀ (i : FileMap) (order : List String),
    (runUpdateFiles files i order).2.2 = true →
    ∀ k ∈ order, (getKV i k).isSome = true := by
  intro i order
  induction order generalizing i with
  | nil => intro _ k hk; simp at hk
  | cons path rest ih =>
      intro hok k hk
      cases hg : getKV i path with
      | none => simp [runUpdateFiles, hg] at hok
      | some idata =>
          rw [List.mem_cons] at hk
          by_cases he : idata = (getKV files path).getD []
          · simp only [runUpdateFiles, hg, if_pos he] at hok
            rcases hk with rfl | hk
            · simp [hg]
            · exact ih i hok k hk
          · simp only [runUpdateFiles, hg, if_neg he] at hok
            rcases hk with rfl | hk
            · simp [hg]
            · have := ih _ hok k hk
              by_cases hkp : k = path
              · subst hkp; simp [hg]
              · rwa [getKV_setKV_ne i path k _ hkp] at this

theorem runUpdate_ok_lookup (files : FileMap) : ∀ (i : FileMap) (order : List String),
    order.Nodup → (runUpdateFiles files i order).2.2 = true →
    ∀ k ∈ order, getKV (runUpdateFiles files i order).1 k
      = some ((getKV files k).getD []) := by
  intro i order
  induction order generalizing i with
  | nil => intro _ _ k hk; simp at hk
  | cons path rest ih =>
      intro hnd hok k hk
      rw [List.nodup_cons] at hnd
      cases hg : getKV i path with
      | none => simp [runUpdateFiles, hg] at hok
      | some idata =>
          rw [List.mem_cons] at hk
          by_cases he : idata = (getKV files path).getD []
          · simp only [runUpdateFiles, hg, if_pos he] at hok ⊢
            rcases hk with rfl | hk
            · rw [runUpdate_frame files i rest k hnd.1, hg, he]
            · exact ih i hnd.2 hok k hk
          · simp only [runUpdateFiles, hg, if_neg he] at hok ⊢
            rcases hk with rfl | hk
            · rw [runUpdate_frame files _ rest k hnd.1]
              exact getKV_setKV_self i k _
            · exact ih _ hnd.2 hok k hk

theorem runUpdate_abort (files : FileMap) : ∀ (i : FileMap) (order : List String)
    (k : String), k ∈ order → getKV i k = none →
    (runUpdateFiles files i order).2.2 = false := by
  intro i order
  induction order generalizing i with
  | nil => intro k hk; simp at hk
  | cons path rest ih =>
      intro k hk hnone
      rw [List.mem_cons] at hk
      cases hg : getKV i path with
      | none => simp [runUpdateFiles, hg]
      | some idata =>
          have hkp : k ≠ path := by
            rintro rfl
            rw [hg] at hnone
            exact Option.noConfusion hnone
          have hk' : k ∈ rest := by
            rcases hk with rfl | hk
            · exact absurd rfl hkp
            · exact hk
          by_cases he : idata = (getKV files path).getD []
          · simp only [runUpdateFiles, hg, if_pos he]
            exact ih i k hk' hnone
          · simp only [runUpdateFiles, hg, if_neg he]
            refine ih _ k hk' ?_
            rw [getKV_setKV_ne i path k _ hkp]
            exact hnone

theorem flatten_inj_of_lengths (l1 l2 : List Bytes)
    (h : List.Forall₂ (fun a b : Bytes => a.length = b.length) l1 l2)
    (hj : l1.flatten = l2.flatten) : l1 = l2 := by
  induction h with
  | nil => rfl
  | @cons a b as bs hab _ ih =>
      simp only [List.flatten_cons] at hj
      obtain ⟨h1, h2⟩ := List.append_inj hj hab
      rw [h1, ih h2]

theorem forall₂_map_len {f g : String → Bytes} :
    ∀ l : List String, (∀ x ∈ l, (f x).length = (g x).length) →
    List.Forall₂ (fun a b : Bytes => a.length = b.length) (l.map f) (l.map g) := by
  intro l
  induction l with
  | nil => intro _; simp
  | cons x rest ih =>
      intro h
      simp only [List.map_cons]
      exact List.Forall₂.cons (h x (by simp)) (ih (fun y hy => h y (by simp [hy])))

theorem eq_at_mem_of_map_eq {f g : String → Bytes} :
    ∀ l : List String, l.map f = l.map g → ∀ x ∈ l, f x = g x := by
  intro l
  induction l with
  | nil => intro _ x hx; simp at hx
  | cons y rest ih =>
      intro h x hx
      simp only [List.map_cons, List.cons.injEq] at h
      rw [List.mem_cons] at hx
      rcases hx with rfl | hx
      · exact h.1
      · exact ih h.2 x hx

theorem nodup_keysOf_read (hash : Bytes → Bytes) (src : List (String × Bytes)) :
    (keysOf (read_photoshop_plugin_files hash src)).Nodup :=
  nodup_keysOf_setKV _ _ _ (nodup_keysOf_buildDict src)

theorem getKV_read_versionTxt (hash : Bytes → Bytes) (src : List (String × Bytes)) :
    getKV (read_photoshop_plugin_files hash src) versionTxt
      = some (current_plugin_version hash src) :=
  getKV_setKV_self _ _ _

theorem versionTxt_mem_keysOf_read (hash : Bytes → Bytes) (src : List (String × Bytes)) :
    versionTxt ∈ keysOf (read_photoshop_plugin_files hash src) := by
  rw [← getKV_isSome_iff, getKV_read_versionTxt]
  rfl

theorem updateOrder_nodup (hash : Bytes → Bytes) (src : List (String × Bytes)) :
    (updateOrder (read_photoshop_plugin_files hash src)).Nodup := by
  have h := nodup_keysOf_read hash src
  unfold updateOrder
  rw [List.nodup_append]
  refine ⟨h.erase _, List.nodup_singleton _, ?_⟩
  intro a ha hb
  rw [List.mem_singleton] at hb
  subst hb
  rw [h.mem_erase_iff] at ha
  exact ha.1 rfl

theorem mem_updateOrder_iff (hash : Bytes → Bytes) (src : List (String × Bytes))
    (k : String) :
    k ∈ updateOrder (read_photoshop_plugin_files hash src)
      ↔ k ∈ keysOf (read_photoshop_plugin_files hash src) := by
  unfold updateOrder
  rw [List.mem_append, List.mem_singleton]
  constructor
  · rintro (h | rfl)
    · exact List.mem_of_mem_erase h
    · exact versionTxt_mem_keysOf_read hash src
  · intro h
    by_cases hk : k = versionTxt
    · exact Or.inr hk
    · left
      rw [(nodup_keysOf_read hash src).mem_erase_iff]
      exact ⟨hk, h⟩

theorem check_eq_of_vt (hash : Bytes → Bytes) (ver : String)
    (src : List (String × Bytes)) (disk : DiskState) (b : Bytes)
    (hmem : expectedEntry ver ∈ disk.entries)
    (hvt : getKV disk.installed versionTxt = some b) :
    check_plugin_contents hash ver src disk
      = .ok (decide (b = current_plugin_version hash src)) := by
  unfold check_plugin_contents
  rw [if_pos hmem, hvt]

theorem check_eq_error (hash : Bytes → Bytes) (ver : String)
    (src : List (String × Bytes)) (disk : DiskState)
    (hmem : expectedEntry ver ∈ disk.entries)
    (hvt : getKV disk.installed versionTxt = none) :
    check_plugin_contents hash ver src disk = .error () := by
  unfold check_plugin_contents
  rw [if_pos hmem, hvt]

theorem status_ok_of (hash : Bytes → Bytes) (ver : String)
    (src : List (String × Bytes)) (disk : DiskState)
    (hmem : expectedEntry ver ∈ disk.entries)
    (hvt : getKV disk.installed versionTxt = some (current_plugin_version hash src)) :
    get_plugin_status hash ver src disk = .ok statusOk := by
  unfold get_plugin_status
  rw [if_pos hmem, check_eq_of_vt hash ver src disk _ hmem hvt]
  simp

theorem status_not_synced_of (hash : Bytes → Bytes) (ver : String)
    (src : List (String × Bytes)) (disk : DiskState) (b : Bytes)
    (hmem : expectedEntry ver ∈ disk.entries)
    (hvt : getKV disk.installed versionTxt = some b)
    (hne : b ≠ current_plugin_version hash src) :
    get_plugin_status hash ver src disk = .ok statusNotSynced := by
  unfold get_plugin_status
  rw [if_pos hmem, check_eq_of_vt hash ver src disk b hmem hvt]
  simp [hne]

theorem updateTrace_error (hash : Bytes → Bytes) (ver : String)
    (src : List (String × Bytes)) (disk : DiskState)
    (hmem : expectedEntry ver ∈ disk.entries)
    (hvt : getKV disk.installed versionTxt = none) :
    updateTrace hash ver src disk = ([], .error ()) := by
  unfold updateTrace
  rw [if_pos hmem, check_eq_error hash ver src disk hmem hvt]

theorem updateTrace_uptodate (hash : Bytes → Bytes) (ver : String)
    (src : List (String × Bytes)) (disk : DiskState)
    (hmem : expectedEntry ver ∈ disk.entries)
    (hvt : getKV disk.installed versionTxt = some (current_plugin_version hash src)) :
    updateTrace hash ver src disk = ([], .ok disk) := by
  unfold updateTrace
  rw [if_pos hmem, check_eq_of_vt hash ver src disk _ hmem hvt]
  simp

theorem updateTrace_proceed (hash : Bytes → Bytes) (ver : String)
    (src : List (String × Bytes)) (disk : DiskState) (b : Bytes)
    (hmem : expectedEntry ver ∈ disk.entries)
    (hvt : getKV disk.installed versionTxt = some b)
    (hne : b ≠ current_plugin_version hash src) :
    updateTrace hash ver src disk =
      ((runUpdateFiles (read_photoshop_plugin_files hash src) disk.installed
          (updateOrder (read_photoshop_plugin_files hash src))).2.1,
       if (runUpdateFiles (read_photoshop_plugin_files hash src) disk.installed
            (updateOrder (read_photoshop_plugin_files hash src))).2.2
       then .ok { disk with
         installed := (runUpdateFiles (read_photoshop_plugin_files hash src)
           disk.installed (updateOrder (read_photoshop_plugin_files hash src))).1 }
       else .error ()) := by
  unfold updateTrace
  rw [if_pos hmem, check_eq_of_vt hash ver src disk b hmem hvt]
  simp [hne]

theorem mem_addClient (hub : Hub) (c : WClient) : c ∈ (addClient hub c).clients := by
  unfold addClient
  by_cases h : c ∈ hub.clients <;> simp [h]

theorem removeClient_addClient (hub : Hub) (c : WClient) (hc : c ∉ hub.clients) :
    (removeClient (addClient hub c) c).clients = hub.clients := by
  unfold addClient removeClient
  rw [if_neg hc]
  simp only [List.erase_append_right _ hc, List.erase_cons_head, List.append_nil]

theorem removeClient_addClient_hub (hub : Hub) (c : WClient) (hc : c ∉ hub.clients) :
    removeClient (addClient hub c) c = hub :=
  congrArg Hub.mk (removeClient_addClient hub c hc)

theorem handle_error_of_not_mapping (okf : Nat → Bool) (hub : Hub) (ws : Nat)
    (j : Json) (h : j.isMapping = false) :
    handle_websocket_message okf hub ws j = .error () := by
  cases j <;> simp [handle_websocket_message, Json.isMapping] at h ⊢

theorem recvLoop_state_mem (okf : Nat → Bool) (hub : Hub) (c : WClient) :
    ∀ (rs : List RecvOutcome) (st : Hub × Phase), st ∈ (recvLoop okf hub c rs).1 →
      st = (hub, Phase.opened) ∨ st = (removeClient hub c, Phase.doneClean)
        ∨ st = (removeClient hub c, Phase.doneError) := by
  intro rs
  induction rs with
  | nil => intro st hst; simp [recvLoop] at hst
  | cons ev rest ih =>
      intro st hst
      cases ev with
      | msg j =>
          cases hh : handle_websocket_message okf hub c.wsId j with
          | ok pr =>
              obtain ⟨resp, dels⟩ := pr
              simp only [recvLoop, hh] at hst
              rcases List.mem_cons.mp hst with rfl | hst
              · exact Or.inl rfl
              · exact ih st hst
          | error e =>
              simp only [recvLoop, hh, List.mem_singleton] at hst
              exact Or.inr (Or.inr hst)
      | disconnect =>
          simp only [recvLoop, List.mem_singleton] at hst
          exact Or.inr (Or.inl hst)
      | recvError =>
          simp only [recvLoop, List.mem_singleton] at hst
          exact Or.inr (Or.inr hst)

/-- C1 (code bug): with two registered clients on connections 0 and 1, a
JSON object received from connection 0 is handled by broadcasting with
`source_client` left at `None` — the handler passes no exclusion — so the
delivery list includes the sender itself (connection 0) as well as
connection 1, while the direct reply is `None`.  The code's own comment
says "Relay all messages to all other connected clients", and
`broadcast_message` takes a `source_client` parameter for exactly this, but
`handle_websocket_message` does not pass it. -/
theorem C1_sender_receives_own_message :
    handle_websocket_message okT hubAB 0 msgA
      = .ok (none, [(0, msgA, .ok ()), (1, msgA, .ok ())]) := rfl

/-- C2 (corrected): in cooperative mode, every non-excluded client is
attempted regardless of other clients' failures, each outcome depends only
on that client's own send, and the gathered results are returned rather
than raised.  In cross-context mode every send is scheduled (so one failure
does not prevent delivery to the others), but the caller then waits on the
futures and `future.result()` re-raises, so the call returns successfully
iff every send succeeded — a failure does propagate to the caller, contrary
to the original claim (see `C2_counterexample`). -/
theorem C2_broadcast_fault_isolation (okf : Nat → Bool) (hub : Hub) (msg : Json)
    (src : Option Nat) :
    (broadcast_message okf hub msg src).map (fun d => d.1)
      = (broadcast_message (fun _ => true) hub msg src).map (fun d => d.1)
  ∧ (∀ d ∈ broadcast_message okf hub msg src,
      d.2.2 = if okf d.1 then Except.ok () else Except.error ())
  ∧ (broadcast_message_threaded okf false hub msg).1
      = hub.clients.map (fun c => (c.wsId, msg))
  ∧ ((broadcast_message_threaded okf false hub msg).2 = .ok ()
      ↔ ∀ cl ∈ hub.clients, okf cl.wsId = true) := by
  refine ⟨?_, ?_, rfl, ?_⟩
  · simp [broadcast_message, List.map_map, Function.comp]
  · intro d hd
    simp only [broadcast_message, List.mem_map] at hd
    obtain ⟨cl, _, rfl⟩ := hd
    simp [send_message]
  · by_cases hb : hub.clients.all (fun c => okf c.wsId) = true
    · have hforall := List.all_eq_true.mp hb
      simp only [broadcast_message_threaded, if_neg Bool.false_ne_true, hb,
        if_pos rfl]
      exact ⟨fun _ => hforall, fun _ => rfl⟩
    · have hnot : ¬ ∀ cl ∈ hub.clients, okf cl.wsId = true :=
        fun hforall => hb (List.all_eq_true.mpr hforall)
      rw [Bool.not_eq_true] at hb
      simp only [broadcast_message_threaded, if_neg Bool.false_ne_true, hb,
        Bool.false_eq_true, if_false]
      exact ⟨fun h => Except.noConfusion h, fun hf => absurd hf hnot⟩

/-- C2 counterexample: a three-client cross-context broadcast where the
send to connection 1 fails.  All three sends are scheduled, but the call
raises (`Except.error`) instead of completing without raising as the claim
requires; the cooperative path over the same scenario collects the failure
instead. -/
theorem C2_counterexample :
    (broadcast_message_threaded okFail1 false hub3 msgA).1
      = [(0, msgA), (1, msgA), (2, msgA)]
  ∧ (broadcast_message_threaded okFail1 false hub3 msgA).2 = .error ()
  ∧ (broadcast_message okFail1 hub3 msgA none).map (fun d => (d.1, d.2.2))
      = [(0, .ok ()), (1, .error ()), (2, .ok ())] :=
  ⟨rfl, rfl, rfl⟩

/-- C3 (corrected): the handler registers the client *before* awaiting the
handshake, so the very first state of every run has the client in the
registry while still `connecting` (and a broadcast in that state would
target it); the registry invariant that does hold is: the client is a
member exactly from the registration step until the handler's `finally`
block runs, at which point the registry returns to its prior value — on
every exit path. -/
theorem C3_registry_window (okf : Nat → Bool) (hub0 : Hub) (c : WClient)
    (s : Script) (st : Hub × Phase)
    (hc : c ∉ hub0.clients)
    (hst : st ∈ (websocket_endpoint okf hub0 c s).1) :
    (websocket_endpoint okf hub0 c s).1.head?
      = some (addClient hub0 c, Phase.connecting)
  ∧ st.1.clients
      = (if st.2.isDone then hub0.clients else (addClient hub0 c).clients)
  ∧ c ∈ (addClient hub0 c).clients := by
  refine ⟨?_, ?_, mem_addClient hub0 c⟩
  · cases hacc : s.accept <;> simp [websocket_endpoint, hacc]
  · cases hacc : s.accept with
    | failure =>
        simp only [websocket_endpoint, hacc, List.mem_cons, List.mem_singleton,
          List.not_mem_nil, or_false] at hst
        rcases hst with rfl | rfl
        · simp [Phase.isDone]
        · simp [Phase.isDone, removeClient_addClient hub0 c hc]
    | success =>
        simp only [websocket_endpoint, hacc, List.mem_cons] at hst
        rcases hst with rfl | rfl | hst
        · simp [Phase.isDone]
        · simp [Phase.isDone]
        · rcases recvLoop_state_mem okf (addClient hub0 c) c s.recvs st hst with
            rfl | rfl | rfl
          · simp [Phase.isDone]
          · simp [Phase.isDone, removeClient_addClient hub0 c hc]
          · simp [Phase.isDone, removeClient_addClient hub0 c hc]

/-- C3 counterexample: a concrete run whose first state has the client in
the registry while its phase is still `connecting` — the handshake has not
completed, refuting "a member iff Open with an active receive loop" — and
in that state the client is already a broadcast target. -/
theorem C3_counterexample :
    (websocket_endpoint okT hubE c0 ⟨.success, []⟩).1
      = [({ clients := [c0] }, Phase.connecting),
         ({ clients := [c0] }, Phase.opened)]
  ∧ c0 ∈ ({ clients := [c0] } : Hub).clients
  ∧ Phase.connecting ≠ Phase.opened
  ∧ (broadcast_message okT { clients := [c0] } msgA none).map (fun d => d.1) = [0] :=
  ⟨rfl, by decide, by decide, rfl⟩

/-- C3 witness: the amended theorem applied to a concrete clean-disconnect
run, at its initial (pre-handshake) state. -/
theorem C3_witness :
    (websocket_endpoint okT hubE c0 ⟨.success, [.disconnect]⟩).1.head?
      = some (addClient hubE c0, Phase.connecting)
  ∧ (((⟨[c0]⟩ : Hub), Phase.connecting)).1.clients
      = (if (((⟨[c0]⟩ : Hub), Phase.connecting)).2.isDone
         then hubE.clients else (addClient hubE c0).clients)
  ∧ c0 ∈ (addClient hubE c0).clients :=
  C3_registry_window okT hubE c0 ⟨.success, [.disconnect]⟩
    ((⟨[c0]⟩ : Hub), Phase.connecting) (by decide) (by decide)

/-- C10 (confirmed): a received frame that is valid JSON but not an object
makes `data.get('action')` raise before `broadcast_message` is called — the
run attempts no delivery at all — and the handler exits abnormally with the
client removed from the registry by the `finally` block. -/
theorem C10_non_object_frame (okf : Nat → Bool) (hub0 : Hub) (c : WClient)
    (j : Json) (hc : c ∉ hub0.clients) (hj : j.isMapping = false) :
    (websocket_endpoint okf hub0 c ⟨.success, [.msg j]⟩).2 = []
  ∧ (websocket_endpoint okf hub0 c ⟨.success, [.msg j]⟩).1.getLast?
      = some (hub0, Phase.doneError) := by
  have hh := handle_error_of_not_mapping okf (addClient hub0 c) c.wsId j hj
  constructor
  · simp [websocket_endpoint, recvLoop, hh]
  · simp [websocket_endpoint, recvLoop, hh,
      removeClient_addClient_hub hub0 c hc]

/-- C10 witness: the theorem applied to a JSON array received on a fresh
connection 0 while connection 1 is registered. -/
theorem C10_witness :
    (websocket_endpoint okT hubB c0 ⟨.success, [.msg (.jarr [])]⟩).2 = []
  ∧ (websocket_endpoint okT hubB c0 ⟨.success, [.msg (.jarr [])]⟩).1.getLast?
      = some (hubB, Phase.doneError) :=
  C10_non_object_frame okT hubB c0 (.jarr []) (by decide) rfl

/-- C4 (corrected): manifest computation is deterministic — the version
marker is independent of the traversal order of the source tree — and
changing one byte of one file (keeping its length) changes the hashed input
and hence the marker whenever the digest does not collide on the two
inputs.  The original claim's "adding or removing a file changes the
marker" is refuted by `C4_counterexample`: the hash input is the plain
concatenation of file contents, so adding an empty file leaves it
unchanged. -/
theorem C4_marker_determinism (hash : Bytes → Bytes)
    (src1 src2 : List (String × Bytes)) (k : String) (d d' : Bytes)
    (hperm : src1.Perm src2) (hnd : (src1.map Prod.fst).Nodup)
    (hk : getKV (buildDict src1) k = some d)
    (hlen : d'.length = d.length) (hne : d' ≠ d) :
    getKV (read_photoshop_plugin_files hash src1) versionTxt
      = getKV (read_photoshop_plugin_files hash src2) versionTxt
  ∧ hashInputOf (setKV (buildDict src1) k d') ≠ hashInputOf (buildDict src1) := by
  have hnd2 : (src2.map Prod.fst).Nodup := ((hperm.map Prod.fst).nodup_iff).mp hnd
  have hb1 : buildDict src1 = src1 := buildDict_eq_self _ hnd
  have hb2 : buildDict src2 = src2 := buildDict_eq_self _ hnd2
  constructor
  · have hsort : sortKeys (keysOf src1) = sortKeys (keysOf src2) :=
      sortKeys_eq_of_perm _ _ (hperm.map Prod.fst)
    have hlook : ∀ x, getKV src1 x = getKV src2 x :=
      getKV_eq_of_perm src1 src2 hperm hnd
    have hinput : hashInputOf (buildDict src1) = hashInputOf (buildDict src2) := by
      unfold hashInputOf
      rw [hb1, hb2, hsort]
      have hfun : (fun x => (getKV src1 x).getD []) = fun x => (getKV src2 x).getD [] :=
        funext fun x => by rw [hlook x]
      rw [hfun]
    rw [getKV_read_versionTxt hash src1, getKV_read_versionTxt hash src2]
    unfold current_plugin_version
    rw [hinput]
  · intro heq
    have hmem : k ∈ keysOf (buildDict src1) := by
      rw [← getKV_isSome_iff, hk]
      rfl
    have hkeysEq : keysOf (setKV (buildDict src1) k d') = keysOf (buildDict src1) :=
      keysOf_setKV_of_mem _ k d' hmem
    unfold hashInputOf at heq
    rw [hkeysEq] at heq
    have hfa : List.Forall₂ (fun a b : Bytes => a.length = b.length)
        ((sortKeys (keysOf (buildDict src1))).map
          (fun x => (getKV (setKV (buildDict src1) k d') x).getD []))
        ((sortKeys (keysOf (buildDict src1))).map
          (fun x => (getKV (buildDict src1) x).getD [])) := by
      refine forall₂_map_len _ fun x _ => ?_
      by_cases hx : x = k
      · subst hx
        rw [getKV_setKV_self, hk]
        simpa using hlen
      · rw [getKV_setKV_ne _ _ _ _ hx]
    have hmapeq := flatten_inj_of_lengths _ _ hfa heq
    have hk_sk : k ∈ sortKeys (keysOf (buildDict src1)) :=
      (List.perm_insertionSort strLe (keysOf (buildDict src1))).mem_iff.mpr hmem
    have hpt := eq_at_mem_of_map_eq _ hmapeq k hk_sk
    rw [getKV_setKV_self, hk] at hpt
    simp only [Option.getD_some] at hpt
    exact hne hpt

/-- C4 counterexample: adding the empty file `b` to the source tree changes
the file set but not the hashed input, and therefore not the version marker
— refuting "adding or removing a file changes the marker". -/
theorem C4_counterexample :
    hashInputOf (buildDict srcA) = hashInputOf (buildDict srcB)
  ∧ getKV (read_photoshop_plugin_files hash0 srcA) versionTxt
      = getKV (read_photoshop_plugin_files hash0 srcB) versionTxt
  ∧ srcA ≠ srcB :=
  ⟨rfl, rfl, by decide⟩

/-- C4 witness: the amended theorem applied to a concrete two-file tree,
its reversed traversal, and a one-byte change to file `a`. -/
theorem C4_witness :
    getKV (read_photoshop_plugin_files hash0 srcW) versionTxt
      = getKV (read_photoshop_plugin_files hash0 srcWrev) versionTxt
  ∧ hashInputOf (setKV (buildDict srcW) "a" [7]) ≠ hashInputOf (buildDict srcW) :=
  C4_marker_determinism hash0 srcW srcWrev "a" [1] [7]
    (by decide) (by decide) (by decide) (by decide) (by decide)

/-- C5 (corrected): the full case analysis of `get_plugin_status`.  `ok`
iff the version-qualified directory exists and its stored marker equals the
current one; `not-synced` iff the directory exists and the stored marker is
present but different; `reinstall-required` iff the directory is absent but
a versioned entry exists; `not-installed` iff neither exists.  The original
claim's "not-synced in every remaining case" fails: when the directory
exists but its `version.txt` is missing, the status call raises
(`FileNotFoundError` from `installed_version_txt.open('rb')`) instead of
returning `not-synced` — see `C5_counterexample`. -/
theorem C5_status_cases (hash : Bytes → Bytes) (ver : String)
    (src : List (String × Bytes)) (disk : DiskState) :
    (get_plugin_status hash ver src disk = .ok statusOk
      ↔ expectedEntry ver ∈ disk.entries
        ∧ getKV disk.installed versionTxt = some (current_plugin_version hash src))
  ∧ (get_plugin_status hash ver src disk = .ok statusNotSynced
      ↔ expectedEntry ver ∈ disk.entries
        ∧ ∃ b, getKV disk.installed versionTxt = some b
            ∧ b ≠ current_plugin_version hash src)
  ∧ (get_plugin_status hash ver src disk = .error ()
      ↔ expectedEntry ver ∈ disk.entries
        ∧ getKV disk.installed versionTxt = none)
  ∧ (get_plugin_status hash ver src disk = .ok statusReinstall
      ↔ expectedEntry ver ∉ disk.entries
        ∧ (installed_plugin_version disk).isSome = true)
  ∧ (get_plugin_status hash ver src disk = .ok statusNotInstalled
      ↔ expectedEntry ver ∉ disk.entries
        ∧ installed_plugin_version disk = none) := by
  have hd1 : statusOk ≠ statusNotSynced := by decide
  have hd2 : statusOk ≠ statusReinstall := by decide
  have hd3 : statusOk ≠ statusNotInstalled := by decide
  have hd4 : statusNotSynced ≠ statusReinstall := by decide
  have hd5 : statusNotSynced ≠ statusNotInstalled := by decide
  have hd6 : statusReinstall ≠ statusNotInstalled := by decide
  by_cases hmem : expectedEntry ver ∈ disk.entries
  · cases hvt : getKV disk.installed versionTxt with
    | none =>
        have hstat : get_plugin_status hash ver src disk = .error () := by
          unfold get_plugin_status
          rw [if_pos hmem, check_eq_error hash ver src disk hmem hvt]
        refine ⟨?_, ?_, ?_, ?_, ?_⟩ <;> simp [hstat, hmem, hvt]
    | some b =>
        by_cases hbc : b = current_plugin_version hash src
        · subst hbc
          have hstat : get_plugin_status hash ver src disk = .ok statusOk :=
            status_ok_of hash ver src disk hmem hvt
          refine ⟨?_, ?_, ?_, ?_, ?_⟩ <;>
            simp [hstat, hmem, hvt, hd1, hd2, hd3]
        · have hstat : get_plugin_status hash ver src disk = .ok statusNotSynced :=
            status_not_synced_of hash ver src disk b hmem hvt hbc
          refine ⟨?_, ?_, ?_, ?_, ?_⟩ <;>
            simp [hstat, hmem, hvt, hbc, hd1.symm, hd4, hd5]
  · cases hv : installed_plugin_version disk with
    | none =>
        have hstat : get_plugin_status hash ver src disk = .ok statusNotInstalled := by
          unfold get_plugin_status
          rw [if_neg hmem, hv]
          simp
        refine ⟨?_, ?_, ?_, ?_, ?_⟩ <;>
          simp [hstat, hmem, hv, hd3.symm, hd5.symm, hd6.symm]
    | some v =>
        have hstat : get_plugin_status hash ver src disk = .ok statusReinstall := by
          unfold get_plugin_status
          rw [if_neg hmem, hv]
          simp
        refine ⟨?_, ?_, ?_, ?_, ?_⟩ <;>
          simp [hstat, hmem, hv, hd2.symm, hd4.symm, hd6]

/-- C5 counterexample: the expected installation directory exists but its
`version.txt` is missing; the claim requires `not-synced`, but the code
raises (modelled as `Except.error`). -/
theorem C5_counterexample :
    get_plugin_status hash0 ver0 src0 diskNoMarker = .error ()
  ∧ expectedEntry ver0 ∈ diskNoMarker.entries
  ∧ getKV diskNoMarker.installed versionTxt = none :=
  ⟨rfl, by decide, rfl⟩

/-- C6 (corrected): when an update proceeds (marker mismatch) and returns
successfully, every manifest file ends up installed with the manifest's
bytes — and every manifest file was already present before the update: the
code never creates a missing file, it raises on it (`installed_path.open('rb')`
has no missing-file guard), as `C6_counterexample` shows. -/
theorem C6_update_writes (hash : Bytes → Bytes) (ver : String)
    (src : List (String × Bytes)) (disk disk' : DiskState) (b : Bytes) (k : String)
    (hmem : expectedEntry ver ∈ disk.entries)
    (hvt : getKV disk.installed versionTxt = some b)
    (hne : b ≠ current_plugin_version hash src)
    (hok : update_photoshop_plugin hash ver src disk = .ok disk')
    (hk : k ∈ keysOf (read_photoshop_plugin_files hash src)) :
    getKV disk'.installed k
      = some ((getKV (read_photoshop_plugin_files hash src) k).getD [])
  ∧ (getKV disk.installed k).isSome = true := by
  have htr := updateTrace_proceed hash ver src disk b hmem hvt hne
  have hup : update_photoshop_plugin hash ver src disk
      = (if (runUpdateFiles (read_photoshop_plugin_files hash src) disk.installed
              (updateOrder (read_photoshop_plugin_files hash src))).2.2
         then .ok { disk with
           installed := (runUpdateFiles (read_photoshop_plugin_files hash src)
             disk.installed (updateOrder (read_photoshop_plugin_files hash src))).1 }
         else .error ()) := by
    unfold update_photoshop_plugin
    rw [htr]
  rw [hup] at hok
  by_cases hrun : (runUpdateFiles (read_photoshop_plugin_files hash src) disk.installed
      (updateOrder (read_photoshop_plugin_files hash src))).2.2 = true
  · rw [if_pos hrun] at hok
    have hdisk' : disk' = { disk with
        installed := (runUpdateFiles (read_photoshop_plugin_files hash src)
          disk.installed (updateOrder (read_photoshop_plugin_files hash src))).1 } := by
      injection hok with h
      exact h.symm
    subst hdisk'
    have hkord : k ∈ updateOrder (read_photoshop_plugin_files hash src) :=
      (mem_updateOrder_iff hash src k).mpr hk
    constructor
    · exact runUpdate_ok_lookup _ disk.installed _ (updateOrder_nodup hash src)
        hrun k hkord
    · exact runUpdate_ok_present _ disk.installed _ hrun k hkord
  · rw [if_neg hrun] at hok
    exact Except.noConfusion hok

/-- C6 counterexample: the manifest of `srcW` contains file `b`, which is
missing from the installation; the claim requires update to create it, but
the code raises before writing anything (`Except.error`), performing zero
writes and never creating the file. -/
theorem C6_counterexample :
    update_photoshop_plugin hash0 ver0 srcW diskMissingB = .error ()
  ∧ updateWriteSeq hash0 ver0 srcW diskMissingB = []
  ∧ getKV (read_photoshop_plugin_files hash0 srcW) "b" = some [2]
  ∧ getKV diskMissingB.installed "b" = none :=
  ⟨rfl, rfl, rfl, rfl⟩

/-- C6 witness: the amended theorem applied to a complete concrete update
of `src0` over `disk6`, checking file `a`. -/
theorem C6_witness :
    getKV disk6'.installed "a"
      = some ((getKV (read_photoshop_plugin_files hash0 src0) "a").getD [])
  ∧ (getKV disk6.installed "a").isSome = true :=
  C6_update_writes hash0 ver0 src0 disk6 disk6' [9] "a"
    (by decide) rfl (by decide) rfl (by decide)

/-- C7 (confirmed): `update_photoshop_plugin` writes `version.txt` strictly
after every other file it writes (it never appears before the final write),
and for every prefix of the write sequence that stops before the marker
write, the resulting on-disk state is still reported `not-synced` by
`get_plugin_status` — never `ok`. -/
theorem C7_marker_written_last (hash : Bytes → Bytes) (ver : String)
    (src : List (String × Bytes)) (disk : DiskState) (b : Bytes) (n : Nat)
    (hmem : expectedEntry ver ∈ disk.entries)
    (hvt : getKV disk.installed versionTxt = some b)
    (hne : b ≠ current_plugin_version hash src)
    (hTake : versionTxt ∉ ((updateWriteSeq hash ver src disk).take n).map Prod.fst) :
    versionTxt ∉ ((updateWriteSeq hash ver src disk).dropLast).map Prod.fst
  ∧ get_plugin_status hash ver src
      { disk with installed :=
          applyWrites disk.installed ((updateWriteSeq hash ver src disk).take n) }
      = .ok statusNotSynced := by
  constructor
  · have hws : updateWriteSeq hash ver src disk
        = (runUpdateFiles (read_photoshop_plugin_files hash src) disk.installed
            (updateOrder (read_photoshop_plugin_files hash src))).2.1 := by
      unfold updateWriteSeq
      rw [updateTrace_proceed hash ver src disk b hmem hvt hne]
    rw [hws, List.map_dropLast]
    have hsub := runUpdate_writes_sublist (read_photoshop_plugin_files hash src)
      disk.installed (updateOrder (read_photoshop_plugin_files hash src))
    have hnotin : versionTxt ∉
        (keysOf (read_photoshop_plugin_files hash src)).erase versionTxt := by
      intro h
      rw [(nodup_keysOf_read hash src).mem_erase_iff] at h
      exact h.1 rfl
    exact not_mem_dropLast_of_sublist _ _ _ hsub hnotin
  · have hvt' : getKV (applyWrites disk.installed
        ((updateWriteSeq hash ver src disk).take n)) versionTxt = some b := by
      rw [getKV_applyWrites_of_not_mem _ _ _ hTake]
      exact hvt
    exact status_not_synced_of hash ver src _ b hmem hvt' hne

/-- C7 witness: the theorem applied to the concrete update of `src0` over
`disk6`, interrupted after its first write. -/
theorem C7_witness :
    versionTxt ∉ ((updateWriteSeq hash0 ver0 src0 disk6).dropLast).map Prod.fst
  ∧ get_plugin_status hash0 ver0 src0
      { disk6 with installed :=
          applyWrites disk6.installed ((updateWriteSeq hash0 ver0 src0 disk6).take 1) }
      = .ok statusNotSynced :=
  C7_marker_written_last hash0 ver0 src0 disk6 [9] 1
    (by decide) rfl (by decide) (by decide)

/-- C8 (confirmed): if an installation exists and `update_photoshop_plugin`
runs to completion, a second call over the unchanged source performs zero
writes and returns the state unchanged, and `get_plugin_status` then
reports `ok`. -/
theorem C8_update_idempotent (hash : Bytes → Bytes) (ver : String)
    (src : List (String × Bytes)) (disk disk' : DiskState)
    (hmem : expectedEntry ver ∈ disk.entries)
    (hrun : update_photoshop_plugin hash ver src disk = .ok disk') :
    updateWriteSeq hash ver src disk' = []
  ∧ update_photoshop_plugin hash ver src disk' = .ok disk'
  ∧ get_plugin_status hash ver src disk' = .ok statusOk := by
  cases hvt : getKV disk.installed versionTxt with
  | none =>
      have htr := updateTrace_error hash ver src disk hmem hvt
      unfold update_photoshop_plugin at hrun
      rw [htr] at hrun
      exact Except.noConfusion hrun
  | some b =>
      by_cases hbc : b = current_plugin_version hash src
      · subst hbc
        have htr := updateTrace_uptodate hash ver src disk hmem hvt
        unfold update_photoshop_plugin at hrun
        rw [htr] at hrun
        have hdisk' : disk' = disk := by
          injection hrun with h
          exact h.symm
        subst hdisk'
        refine ⟨?_, ?_, status_ok_of hash ver src disk' hmem hvt⟩
        · unfold updateWriteSeq
          rw [htr]
        · unfold update_photoshop_plugin
          rw [htr]
      · have htr := updateTrace_proceed hash ver src disk b hmem hvt hbc
        unfold update_photoshop_plugin at hrun
        rw [htr] at hrun
        by_cases hok2 : (runUpdateFiles (read_photoshop_plugin_files hash src)
            disk.installed (updateOrder (read_photoshop_plugin_files hash src))).2.2 = true
        · rw [if_pos hok2] at hrun
          have hdisk' : disk' = { disk with
              installed := (runUpdateFiles (read_photoshop_plugin_files hash src)
                disk.installed (updateOrder (read_photoshop_plugin_files hash src))).1 } := by
            injection hrun with h
            exact h.symm
          have hvt' : getKV disk'.installed versionTxt
              = some (current_plugin_version hash src) := by
            rw [hdisk']
            have := runUpdate_ok_lookup (read_photoshop_plugin_files hash src)
              disk.installed _ (updateOrder_nodup hash src) hok2 versionTxt
              ((mem_updateOrder_iff hash src versionTxt).mpr
                (versionTxt_mem_keysOf_read hash src))
            rw [this, getKV_read_versionTxt]
            rfl
          have hmem' : expectedEntry ver ∈ disk'.entries := by
            rw [hdisk']
            exact hmem
          refine ⟨?_, ?_, status_ok_of hash ver src disk' hmem' hvt'⟩
          · unfold updateWriteSeq
            rw [updateTrace_uptodate hash ver src disk' hmem' hvt']
          · unfold update_photoshop_plugin
            rw [updateTrace_uptodate hash ver src disk' hmem' hvt']
        · rw [if_neg hok2] at hrun
          exact Except.noConfusion hrun

/-- C8 witness: the theorem applied to the concrete completed update of
`src0` over `disk6`, which produces `disk6'`. -/
theorem C8_witness :
    updateWriteSeq hash0 ver0 src0 disk6' = []
  ∧ update_photoshop_plugin hash0 ver0 src0 disk6' = .ok disk6'
  ∧ get_plugin_status hash0 ver0 src0 disk6' = .ok statusOk :=
  C8_update_idempotent hash0 ver0 src0 disk6 disk6' (by decide) rfl

/-- C9 (confirmed): `update_photoshop_plugin` never writes, deletes or
modifies a file that is not in the manifest: no write in its write sequence
targets such a path, and the file's stored bytes (and existence) are the
same after the update — including when the update aborts early. -/
theorem C9_untracked_untouched (hash : Bytes → Bytes) (ver : String)
    (src : List (String × Bytes)) (disk : DiskState) (p : String)
    (hp : p ∉ keysOf (read_photoshop_plugin_files hash src)) :
    p ∉ (updateWriteSeq hash ver src disk).map Prod.fst
  ∧ getKV ((Option.getD (update_photoshop_plugin hash ver src disk).toOption
      disk).installed) p = getKV disk.installed p := by
  have hpord : p ∉ updateOrder (read_photoshop_plugin_files hash src) := by
    intro h
    exact hp ((mem_updateOrder_iff hash src p).mp h)
  by_cases hmem : expectedEntry ver ∈ disk.entries
  · cases hvt : getKV disk.installed versionTxt with
    | none =>
        have htr := updateTrace_error hash ver src disk hmem hvt
        unfold updateWriteSeq update_photoshop_plugin
        rw [htr]
        exact ⟨by simp, rfl⟩
    | some b =>
        by_cases hbc : b = current_plugin_version hash src
        · subst hbc
          have htr := updateTrace_uptodate hash ver src disk hmem hvt
          unfold updateWriteSeq update_photoshop_plugin
          rw [htr]
          exact ⟨by simp, rfl⟩
        · have htr := updateTrace_proceed hash ver src disk b hmem hvt hbc
          unfold updateWriteSeq update_photoshop_plugin
          rw [htr]
          constructor
          · intro hmm
            exact hpord ((runUpdate_writes_sublist _ _ _).subset hmm)
          · by_cases hok2 : (runUpdateFiles (read_photoshop_plugin_files hash src)
                disk.installed (updateOrder (read_photoshop_plugin_files hash src))).2.2 = true
            · rw [if_pos hok2]
              simpa using runUpdate_frame (read_photoshop_plugin_files hash src)
                disk.installed _ p hpord
            · rw [if_neg hok2]
              rfl
  · have htr : updateTrace hash ver src disk = ([], .ok disk) := by
      unfold updateTrace
      rw [if_neg hmem]
    unfold updateWriteSeq update_photoshop_plugin
    rw [htr]
    exact ⟨by simp, rfl⟩

/-- C9 witness: the theorem applied to the untracked path `zzz` over the
concrete update of `src0` on `disk6`. -/
theorem C9_witness :
    "zzz" ∉ (updateWriteSeq hash0 ver0 src0 disk6).map Prod.fst
  ∧ getKV ((Option.getD (update_photoshop_plugin hash0 ver0 src0 disk6).toOption
      disk6).installed) "zzz" = getKV disk6.installed "zzz" :=
  C9_untracked_untouched hash0 ver0 src0 disk6 "zzz" (by decide)

end EditorLink
